import Mathlib

/-!
Shallow embedding of the core logic of `src/main.go` (tsujio/make-invoices):
the work-day extractor (`getWorkDays`), the spreadsheet synchronizer
(`updateAndDownloadWorkSpreadsheets`) and the document templater
(`updateAndDownloadWorkDocuments`), together with the calendar arithmetic
(`time.Time`, `AddDate`, `Weekday`, `Format`) those functions use.

Machine integers are modelled as `Nat`/`Int`; Go library calls
(`time.AddDate`, `time.Weekday`, `Format`) are embedded by executable
definitions with the library's documented semantics.
-/

namespace MakeInvoices

/-! ## Calendar basics (embedding of the parts of Go `time` used by main.go) -/

/-- Gregorian leap-year rule, as used by Go `time.isLeap`. -/
def isLeapYear (y : Nat) : Bool :=
  y % 4 = 0 && (y % 100 ≠ 0 || y % 400 = 0)

/-- Length of month `m` (1..12) of year `y`, as in Go `time.daysIn`. -/
def daysInMonth (y : Nat) (m : Nat) : Nat :=
  if m = 2 then (if isLeapYear y then 29 else 28)
  else if m = 4 ∨ m = 6 ∨ m = 9 ∨ m = 11 then 30
  else 31

/-- A civil date (proleptic Gregorian, year ≥ 1), the projection of a Go
`time.Time` that main.go actually reads: `Year()`, `Month()`, `Day()`. -/
structure Date where
  year : Nat
  month : Nat
  day : Nat
deriving DecidableEq, Repr

/-- A date is valid when its month is 1..12 and its day fits the month. -/
def Date.Valid (t : Date) : Prop :=
  1 ≤ t.year ∧ 1 ≤ t.month ∧ t.month ≤ 12 ∧ 1 ≤ t.day ∧ t.day ≤ daysInMonth t.year t.month

instance (t : Date) : Decidable t.Valid := by
  unfold Date.Valid; infer_instance

/-- Days before month `m` in a non-leap year (Go `daysBefore`). -/
def daysBeforeMonth (m : Nat) : Nat :=
  match m with
  | 1 => 0 | 2 => 31 | 3 => 59 | 4 => 90 | 5 => 120 | 6 => 151
  | 7 => 181 | 8 => 212 | 9 => 243 | 10 => 273 | 11 => 304 | 12 => 334
  | _ => 365

/-- Day count since 0001-01-01 (that date having number 0), the analogue of
Go's absolute day used by `Time.Weekday`. -/
def dayNumber (t : Date) : Nat :=
  let y := t.year - 1
  y * 365 + y / 4 - y / 100 + y / 400
    + daysBeforeMonth t.month
    + (if 2 < t.month ∧ isLeapYear t.year then 1 else 0)
    + (t.day - 1)

/-- Go `Time.Weekday()`: Sunday = 0 .. Saturday = 6.  January 1 of year 1 is
a Monday in the proleptic Gregorian calendar, which is Go's epoch. -/
def Date.weekday (t : Date) : Nat :=
  (dayNumber t + 1) % 7

/-- Successor day in the civil calendar. -/
def Date.nextDay (t : Date) : Date :=
  if t.day < daysInMonth t.year t.month then ⟨t.year, t.month, t.day + 1⟩
  else if t.month < 12 then ⟨t.year, t.month + 1, 1⟩
  else ⟨t.year + 1, 1, 1⟩

/-! ### Go `AddDate`

`Time.AddDate(years, months, days)` adds the components and normalizes:
months are folded into the year with floor semantics, then an out-of-range
day is normalized by rolling across month boundaries.  main.go calls it as
`AddDate(0, 1, -1)` (last day of target month), `AddDate(0, -1, 0)`
(previous month) and `AddDate(0, 0, 1)` (next day). -/

/-- Normalize a (year, 1-based month) pair with the month allowed out of
range, as Go `norm` does inside `time.Date`. -/
def normMonth (y : Int) (m : Int) : Int × Nat :=
  (y + (m - 1).fdiv 12, ((m - 1) % 12).toNat + 1)

/-- Roll a possibly out-of-range day offset across month boundaries.
`fixDay fuel y m dd` interprets `dd` as a 1-based day offset into month
`(y, m)`; the fuel strictly exceeds the number of month hops needed. -/
def fixDay : Nat → Int → Nat → Int → Date
  | 0, y, m, _ => ⟨y.toNat, m, 1⟩
  | fuel + 1, y, m, dd =>
    if dd < 1 then
      if m = 1 then fixDay fuel (y - 1) 12 (dd + daysInMonth (y - 1).toNat 12)
      else fixDay fuel y (m - 1) (dd + daysInMonth y.toNat (m - 1))
    else if (daysInMonth y.toNat m : Int) < dd then
      if m = 12 then fixDay fuel (y + 1) 1 (dd - daysInMonth y.toNat m)
      else fixDay fuel y (m + 1) (dd - daysInMonth y.toNat m)
    else ⟨y.toNat, m, dd.toNat⟩

/-- Embedding of Go `t.AddDate(0, months, days)` (no year component is ever
passed in main.go). -/
def Date.addDate (t : Date) (months : Int) (days : Int) : Date :=
  let ym := normMonth (t.year : Int) ((t.month : Int) + months)
  fixDay (days.natAbs + 2) ym.1 ym.2 ((t.day : Int) + days)

/-! ### Go `Format` layouts used by main.go -/

/-- Left-pad a numeral with zeros to `len` digits (Go's `2006`, `01`, `02`
layout components). -/
def padZero (len : Nat) (n : Nat) : String :=
  let s := toString n
  String.mk (List.replicate (len - s.length) '0') ++ s

/-- Go `Format("200601")`: compact year-month, e.g. "202402". -/
def formatCompact (t : Date) : String :=
  padZero 4 t.year ++ padZero 2 t.month

/-- Go `Format("2006/01/02")`, e.g. "2024/02/01". -/
def formatSlash (t : Date) : String :=
  padZero 4 t.year ++ "/" ++ padZero 2 t.month ++ "/" ++ padZero 2 t.day

/-- Go `Format("1/2")`: month/day without leading zeros, e.g. "2/28". -/
def formatMonthSlashDay (t : Date) : String :=
  toString t.month ++ "/" ++ toString t.day

/-! ## DocumentTemplater (`updateAndDownloadWorkDocuments`, main.go 545-652) -/

/-- One `ReplaceAllText` request of the docs batch update: replace every
occurrence of `key` by `value`. -/
structure ReplaceRequest where
  key : String
  value : String
deriving DecidableEq, Repr

/-- main.go 598-607 `makeReplaceRequest`. -/
def makeReplaceRequest (key value : String) : ReplaceRequest := ⟨key, value⟩

/-- The placeholder token `{{year}}`. -/
def yearToken : String := "\x7b\x7byear\x7d\x7d"

/-- The placeholder token `{{month}}`. -/
def monthToken : String := "\x7b\x7bmonth\x7d\x7d"

/-- The placeholder token `{{day}}`. -/
def dayToken : String := "\x7b\x7bday\x7d\x7d"

/-- The placeholder token `{{totalHours}}`. -/
def totalHoursToken : String := "\x7b\x7btotalHours\x7d\x7d"

/-- The per-slot placeholder token `{{day<i>}}` (Go `fmt.Sprintf("{{day%d}}", i)`). -/
def daySlotToken (i : Nat) : String := "\x7b\x7bday" ++ toString i ++ "\x7d\x7d"

/-- The per-slot placeholder token `{{day<i>Hours}}`. -/
def daySlotHoursToken (i : Nat) : String := "\x7b\x7bday" ++ toString i ++ "Hours\x7d\x7d"

/-- The `switch d.Weekday()` test of main.go 619-620: Go `time.Monday = 1`,
`time.Wednesday = 3`, `time.Friday = 5`. -/
def isMonWedFri (d : Date) : Bool :=
  d.weekday = 1 || d.weekday = 3 || d.weekday = 5

/-- main.go 613-626: the weekday-slot walk.  State is the Go loop state
`(d, i)`; the result is the appended request list together with the final
value of `i`.  The fuel argument strictly exceeds the number of loop
iterations (at most `daysInMonth ≤ 31` for a first-of-month start, after
which `d.Month() != targetTime.Month()` breaks the loop). -/
def slotWalkAux (target : Date) : Nat → Date → Nat → List ReplaceRequest × Nat
  | 0, _, i => ([], i)
  | fuel + 1, d, i =>
    if 12 < i ∨ d.month ≠ target.month then ([], i)
    else if isMonWedFri d then
      let rest := slotWalkAux target fuel (d.addDate 0 1) (i + 1)
      (makeReplaceRequest (daySlotToken i) (formatMonthSlashDay d) ::
         makeReplaceRequest (daySlotHoursToken i) "8" :: rest.1,
       rest.2)
    else
      slotWalkAux target fuel (d.addDate 0 1) i

/-- The walk started as in main.go 613-614: `d := targetTime; i := 1`. -/
def slotWalk (target : Date) : List ReplaceRequest × Nat :=
  slotWalkAux target 32 target 1

/-- The body of the `for i <= 12` loop of main.go 628-632, counted down by
the number `13 - i` of remaining iterations. -/
def blankSlotsAux : Nat → Nat → List ReplaceRequest
  | 0, _ => []
  | fuel + 1, i =>
    makeReplaceRequest (daySlotToken i) "" ::
      makeReplaceRequest (daySlotHoursToken i) "" :: blankSlotsAux fuel (i + 1)

/-- main.go 628-632: blank the remaining slots `i..12`. -/
def blankSlots (i : Nat) : List ReplaceRequest :=
  blankSlotsAux (13 - i) i

/-- main.go 608-632: the complete replacement batch for the target document:
`{{year}}`, `{{month}}`, `{{day}}` (via `AddDate(0, 1, -1)`), the slot walk,
`{{totalHours}} = (i-1)*8`, then the blanked slots. -/
def buildRequests (target : Date) : List ReplaceRequest :=
  let walk := slotWalk target
  [makeReplaceRequest yearToken (padZero 4 target.year),
   makeReplaceRequest monthToken (toString target.month),
   makeReplaceRequest dayToken (toString ((target.addDate 1 (-1)).day))]
  ++ walk.1
  ++ [makeReplaceRequest totalHoursToken (toString ((walk.2 - 1) * 8))]
  ++ blankSlots walk.2

/-- main.go 669: `time.Date(targetTime.Year(), targetTime.Month(), 1, 0, 0,
0, 0, jst)` — the run's target month is pinned to day 1 of its month. -/
def normalizeTarget (t : Date) : Date := ⟨t.year, t.month, 1⟩

/-- Reference list (for stating walk properties): the Monday/Wednesday/Friday
dates of `target`'s month with day index `start..daysInMonth`, in calendar
order. -/
def monWedFriFrom (target : Date) (start : Nat) : List Date :=
  ((List.range' start (daysInMonth target.year target.month + 1 - start)).map
      (fun j => Date.mk target.year target.month j)).filter isMonWedFri

/-- Reference list (for stating walk properties): the Monday/Wednesday/Friday
dates of `target`'s month in calendar order. -/
def monWedFriDays (target : Date) : List Date :=
  monWedFriFrom target 1

/-- Reference builder (for stating walk properties): the filled-slot requests
for a list of dates, slots numbered from `i`. -/
def fillRequests (i : Nat) : List Date → List ReplaceRequest
  | [] => []
  | d :: ds =>
    makeReplaceRequest (daySlotToken i) (formatMonthSlashDay d) ::
      makeReplaceRequest (daySlotHoursToken i) "8" :: fillRequests (i + 1) ds

/-! ### Folder provisioning (main.go 552-591) -/

/-- A Drive file as main.go reads it: `files(id, name)`. -/
structure DriveFile where
  id : String
  name : String
deriving DecidableEq, Repr

/-- Template metadata as fetched at main.go 552: `Fields("parents, id, name")`. -/
structure TemplateMeta where
  name : String
  parents : List String
deriving DecidableEq, Repr

/-- The run's two ways to die: `log.Fatalf` (the uniform fatal abort) versus
an unrecovered Go runtime panic. -/
inductive RunError where
  | fatalAbort (msg : String)
  | goPanic (msg : String)
deriving DecidableEq, Repr

/-- main.go 557 `folderID := template.Parents[0]`: an unguarded slice index.
On an empty `Parents` slice Go panics with an index-out-of-range runtime
error; there is no `log.Fatalf` branch for this case in the source. -/
def templateParentFolder (t : TemplateMeta) : Except RunError String :=
  match t.parents with
  | [] => Except.error (RunError.goPanic "runtime error: index out of range")
  | p :: _ => Except.ok p

/-- main.go 559 `strings.Replace(template.Name, "yyyymm", ..., 1)`: replace
the first occurrence only. -/
def replaceFirstAux (old new : List Char) : List Char → List Char
  | [] => []
  | c :: rest =>
    if old.isPrefixOf (c :: rest) then new ++ (c :: rest).drop old.length
    else c :: replaceFirstAux old new rest

/-- Go `strings.Replace(s, old, new, 1)`. -/
def replaceFirst (s old new : String) : String :=
  String.mk (replaceFirstAux old.toList new.toList s.toList)

/-- main.go 559: the computed target document name. -/
def targetDocumentName (templateName : String) (target : Date) : String :=
  replaceFirst templateName "yyyymm" (formatCompact target)

/-- main.go 562-582: one pass over the paginated folder listing, deleting
every file whose name equals `tname`.  `chunks` are the listing's pages in
order; the result is the files that survive the pass. -/
def deletePass (tname : String) : List (List DriveFile) → List DriveFile
  | [] => []
  | page :: rest => page.filter (fun f => ¬ f.name = tname) ++ deletePass tname rest

/-- main.go 559-591: folder contents after the templater's delete-then-copy,
`newId` being the id the copy endpoint assigns to the fresh document. -/
def folderAfterTemplater (chunks : List (List DriveFile)) (templateName : String)
    (target : Date) (newId : String) : List DriveFile :=
  let tname := targetDocumentName templateName target
  deletePass tname chunks ++ [⟨newId, tname⟩]

/-! ## SpreadsheetSynchronizer (`updateAndDownloadWorkSpreadsheets`, main.go 448-543) -/

/-- A sheet page as main.go reads it: `Properties.SheetId`, `Properties.Title`. -/
structure SheetProps where
  sheetId : Int
  title : String
deriving DecidableEq, Repr

/-- main.go 462-468: `var targetSheetID int64` starts at the zero value 0;
the scan assigns the id of every page whose title equals the compact target
month (no break, so the last match wins). -/
def findTargetSheetID (pages : List SheetProps) (targetTitle : String) : Int :=
  pages.foldl (fun acc s => if targetTitle = s.title then s.sheetId else acc) 0

/-- Reference date (for stating clone-fallback properties): the first day of
the month immediately preceding `t`'s month. -/
def prevMonth (t : Date) : Date :=
  if t.month = 1 then ⟨t.year - 1, 12, 1⟩ else ⟨t.year, t.month - 1, 1⟩

/-- How the synchronizer obtains the target page: reuse an existing page,
clone the page with the given source id, or abort via `log.Fatalf`. -/
inductive SheetResolution where
  | existing (sheetId : Int)
  | cloned (sourceSheetId : Int)
  | fatal
deriving DecidableEq, Repr

/-- main.go 462-502: the target-page resolution.  If the scanned id is 0 the
page is treated as absent; the clone source is the first page titled with
`AddDate(0, -1, 0)`'s compact month (break on first match), and its absence
is fatal (`"Failed to determine sheet to copy"`). -/
def resolveTargetSheet (pages : List SheetProps) (target : Date) : SheetResolution :=
  let tid := findTargetSheetID pages (formatCompact target)
  if tid = 0 then
    match pages.find? (fun s => formatCompact (target.addDate (-1) 0) = s.title) with
    | some s => SheetResolution.cloned s.sheetId
    | none => SheetResolution.fatal
  else SheetResolution.existing tid

/-- main.go 514-520: the inner loop computing one cell of the attendance
column, with its break on the first matching work day. -/
def cellValue (target : Date) (startTime : String) (i : Nat) : List Date → String
  | [] => ""
  | d :: rest =>
    if target.year = d.year ∧ target.month = d.month ∧ i = d.day then startTime
    else cellValue target startTime i rest

/-- main.go 512-522: the 31-cell column written to D7:D37, one cell per day
index 1..31. -/
def buildColumn (target : Date) (workDays : List Date) (startTime : String) : List String :=
  (List.range' 1 31).map (fun i => cellValue target startTime i workDays)

/-- The cells of the target page that the synchronizer writes: M3 and the
column D7:D37. -/
structure PageState where
  m3 : String
  attendance : List String
deriving DecidableEq, Repr

/-- main.go 504-527: the two unconditional writes to the target page — M3
gets `Format("2006/01/02")` of the target month, D7:D37 gets the attendance
column.  Neither depends on the page's prior contents. -/
def applySheetWrites (target : Date) (workDays : List Date) (startTime : String)
    (_st : PageState) : PageState :=
  { m3 := formatSlash target
    attendance := buildColumn target workDays startTime }

/-! ## WorkDayExtractor (`getWorkDays`, main.go 403-446) -/

/-- A calendar event as main.go reads it: `Start.DateTime`, `Start.Date`
(empty string when absent) and `Summary`. -/
structure CalEvent where
  startDateTime : String
  startDate : String
  summary : String
deriving DecidableEq, Repr

/-- Split a character list at every occurrence of `c` (the separator is
dropped), keeping empty segments — the behaviour of splitting a string on a
one-character separator. -/
def splitOnCharAux (c : Char) : List Char → List Char → List (List Char)
  | [], acc => [acc.reverse]
  | x :: rest, acc =>
    if x = c then acc.reverse :: splitOnCharAux c rest []
    else splitOnCharAux c rest (x :: acc)

/-- Split at every occurrence of `c`. -/
def splitOnChar (c : Char) (l : List Char) : List (List Char) :=
  splitOnCharAux c l []

/-- Read a fixed-width decimal numeral: exactly `len` digit characters. -/
def parseNatFixed (len : Nat) (l : List Char) : Option Nat :=
  if l.length = len ∧ l.all (fun c => c.isDigit) then
    some (l.foldl (fun a c => a * 10 + (c.toNat - 48)) 0)
  else none

/-- Go `time.Parse("2006-01-02", s)`, projected to the fields main.go reads
(`Year()`, `Month()`, `Day()`); `none` models the parse error, which is
fatal in main.go. -/
def parseYMD (s : String) : Option Date :=
  match splitOnChar '-' s.toList with
  | [ys, ms, ds] =>
    match parseNatFixed 4 ys, parseNatFixed 2 ms, parseNatFixed 2 ds with
    | some y, some m, some d =>
      if 1 ≤ m ∧ m ≤ 12 ∧ 1 ≤ d ∧ d ≤ daysInMonth y m then some ⟨y, m, d⟩ else none
    | _, _, _ => none
  | _ => none

/-- Go `time.Parse(time.RFC3339, s)`, projected to the wall-clock date
components that main.go reads.  An RFC3339 timestamp is its date part, a
'T', and a time-of-day with offset; the date part carries the components,
the rest is checked only for presence. -/
def parseRFC3339Date (s : String) : Option Date :=
  match splitOnChar 'T' s.toList with
  | [d, rest] => if rest = [] then none else parseYMD (String.mk d)
  | _ => none

/-- main.go 426-436: resolve an event's date — `Start.DateTime` when
non-empty, otherwise `Start.Date`. -/
def resolveEventDate (e : CalEvent) : Option Date :=
  if e.startDateTime ≠ "" then parseRFC3339Date e.startDateTime
  else parseYMD e.startDate

/-- main.go 422-445: the work-day collection loop.  `none` models the fatal
abort on any unparseable event date; otherwise an event's date is kept iff
its year and month equal the target's and its summary equals the configured
work-day title. -/
def getWorkDays (target : Date) (workDayTitle : String) : List CalEvent → Option (List Date)
  | [] => some []
  | e :: rest =>
    match resolveEventDate e with
    | none => none
    | some date =>
      match getWorkDays target workDayTitle rest with
      | none => none
      | some ws =>
        if date.year ≠ target.year ∨ date.month ≠ target.month then some ws
        else if e.summary = workDayTitle then some (date :: ws)
        else some ws

end MakeInvoices



namespace MakeInvoices

/-! ## Calendar lemmas -/

lemma daysInMonth_pos (y m : Nat) : 1 ≤ daysInMonth y m := by
  unfold daysInMonth; split_ifs <;> omega

lemma daysInMonth_le (y m : Nat) : daysInMonth y m ≤ 31 := by
  unfold daysInMonth; split_ifs <;> omega

lemma normMonth_id (y m : Nat) (hm1 : 1 ≤ m) (hm2 : m ≤ 12) :
    normMonth (y : Int) (m : Int) = ((y : Int), m) := by
  have hf : ((m : Int) - 1).fdiv 12 = 0 := by
    rw [Int.fdiv_eq_ediv _ (by omega)]; omega
  have h2 : (((m : Int) - 1) % 12).toNat + 1 = m := by omega
  simp only [normMonth, hf, h2]
  norm_num

lemma normMonth_thirteen (y : Nat) : normMonth (y : Int) 13 = ((y : Int) + 1, 1) := by
  have hf : ((13 : Int) - 1).fdiv 12 = 1 := by decide
  have h2 : (((13 : Int) - 1) % 12).toNat + 1 = 1 := by decide
  simp only [normMonth, hf, h2]

lemma normMonth_zero (y : Nat) : normMonth (y : Int) 0 = ((y : Int) - 1, 12) := by
  have hf : ((0 : Int) - 1).fdiv 12 = -1 := by decide
  have h2 : (((0 : Int) - 1) % 12).toNat + 1 = 12 := by decide
  simp only [normMonth, hf, h2]
  norm_num [Int.sub_eq_add_neg]

lemma fixDay_succ (fuel : Nat) (y : Int) (m : Nat) (dd : Int) :
    fixDay (fuel + 1) y m dd =
      if dd < 1 then
        if m = 1 then fixDay fuel (y - 1) 12 (dd + daysInMonth (y - 1).toNat 12)
        else fixDay fuel y (m - 1) (dd + daysInMonth y.toNat (m - 1))
      else if (daysInMonth y.toNat m : Int) < dd then
        if m = 12 then fixDay fuel (y + 1) 1 (dd - daysInMonth y.toNat m)
        else fixDay fuel y (m + 1) (dd - daysInMonth y.toNat m)
      else ⟨y.toNat, m, dd.toNat⟩ := rfl

lemma fixDay_in_range (fuel : Nat) (y : Int) (m : Nat) (dd : Int) (h1 : 1 ≤ dd)
    (h2 : dd ≤ (daysInMonth y.toNat m : Int)) :
    fixDay (fuel + 1) y m dd = ⟨y.toNat, m, dd.toNat⟩ := by
  rw [fixDay_succ, if_neg (by omega), if_neg (by omega)]

lemma addDate_next (y m day : Nat) (hy : 1 ≤ y) (hm1 : 1 ≤ m) (hm2 : m ≤ 12)
    (hd1 : 1 ≤ day) (hd2 : day ≤ daysInMonth y m) :
    Date.addDate ⟨y, m, day⟩ 0 1 = Date.nextDay ⟨y, m, day⟩ := by
  simp only [Date.addDate, add_zero]
  rw [normMonth_id y m hm1 hm2]
  simp only [Int.natAbs_one]
  rw [show (1 : Nat) + 2 = 2 + 1 from rfl, fixDay_succ]
  simp only [Int.toNat_natCast]
  rw [if_neg (by omega)]
  by_cases hlt : day < daysInMonth y m
  · rw [if_neg (by omega)]
    unfold Date.nextDay
    dsimp only
    rw [if_pos hlt, Date.mk.injEq]
    refine ⟨rfl, rfl, by omega⟩
  · rw [if_pos (by omega)]
    by_cases h12 : m = 12
    · rw [if_pos h12]
      rw [show (2 : Nat) = 1 + 1 from rfl,
        fixDay_in_range 1 ((y : Int) + 1) 1 _ (by omega)
          (by have := daysInMonth_pos ((y : Int) + 1).toNat 1; omega)]
      unfold Date.nextDay
      dsimp only
      rw [if_neg hlt, if_neg (by omega), Date.mk.injEq]
      refine ⟨by omega, rfl, by omega⟩
    · rw [if_neg h12]
      rw [show (2 : Nat) = 1 + 1 from rfl,
        fixDay_in_range 1 (y : Int) (m + 1) _ (by omega)
          (by simp only [Int.toNat_natCast]
              have := daysInMonth_pos y (m + 1); omega)]
      simp only [Int.toNat_natCast]
      unfold Date.nextDay
      dsimp only
      rw [if_neg hlt, if_pos (by omega), Date.mk.injEq]
      refine ⟨rfl, rfl, by omega⟩

lemma addDate_last (y m : Nat) (hy : 1 ≤ y) (hm1 : 1 ≤ m) (hm2 : m ≤ 12) :
    Date.addDate ⟨y, m, 1⟩ 1 (-1) = ⟨y, m, daysInMonth y m⟩ := by
  simp only [Date.addDate]
  norm_num
  by_cases h12 : m = 12
  · subst h12
    rw [show ((12 : Nat) : Int) + 1 = 13 by norm_num, normMonth_thirteen]
    dsimp only
    rw [show (3 : Nat) = 2 + 1 from rfl, fixDay_succ]
    rw [if_pos (by omega), if_pos rfl]
    rw [show ((y : Int) + 1 - 1) = (y : Int) by ring]
    rw [show daysInMonth ((y : Int)).toNat 12 = 31 by rw [Int.toNat_natCast]; rfl]
    rw [show (2 : Nat) = 1 + 1 from rfl,
      fixDay_in_range 1 (y : Int) 12 _ (by omega)
        (by rw [Int.toNat_natCast, show daysInMonth y 12 = 31 from rfl]; omega)]
    rw [Date.mk.injEq]
    refine ⟨by omega, rfl, by rw [show daysInMonth y 12 = 31 from rfl]; omega⟩
  · rw [show ((m : Nat) : Int) + 1 = ((m + 1 : Nat) : Int) by push_cast; ring,
      normMonth_id y (m + 1) (by omega) (by omega)]
    dsimp only
    rw [show (3 : Nat) = 2 + 1 from rfl, fixDay_succ]
    rw [if_pos (by omega), if_neg (by omega)]
    rw [show m + 1 - 1 = m from rfl]
    rw [show (2 : Nat) = 1 + 1 from rfl,
      fixDay_in_range 1 (y : Int) m _
        (by simp only [Int.toNat_natCast]; have := daysInMonth_pos y m; omega)
        (by simp only [Int.toNat_natCast]; omega)]
    simp only [Int.toNat_natCast]
    rw [Date.mk.injEq]
    refine ⟨rfl, rfl, by omega⟩

lemma addDate_prev (y m : Nat) (hy : 1 ≤ y) (hm1 : 1 ≤ m) (hm2 : m ≤ 12) :
    Date.addDate ⟨y, m, 1⟩ (-1) 0 = prevMonth ⟨y, m, 1⟩ := by
  simp only [Date.addDate, prevMonth]
  norm_num
  by_cases h1 : m = 1
  · subst h1
    rw [show ((1 : Nat) : Int) + -1 = 0 by norm_num, normMonth_zero]
    dsimp only
    rw [if_pos rfl]
    rw [show (2 : Nat) = 1 + 1 from rfl,
      fixDay_in_range 1 ((y : Int) - 1) 12 _ (by omega)
        (by have := daysInMonth_pos ((y : Int) - 1).toNat 12; omega)]
    rw [Date.mk.injEq]
    refine ⟨by omega, rfl, by omega⟩
  · rw [show ((m : Nat) : Int) + -1 = ((m - 1 : Nat) : Int) by push_cast [Nat.cast_sub hm1]; ring,
      normMonth_id y (m - 1) (by omega) (by omega)]
    dsimp only
    rw [if_neg h1]
    rw [show (2 : Nat) = 1 + 1 from rfl,
      fixDay_in_range 1 (y : Int) (m - 1) _ (by omega)
        (by rw [Int.toNat_natCast]; have := daysInMonth_pos y (m - 1); omega)]
    rw [Int.toNat_natCast, Date.mk.injEq]
    refine ⟨rfl, rfl, by omega⟩

end MakeInvoices

namespace MakeInvoices

/-! ## Slot-walk characterization -/

lemma slotWalkAux_out (t : Date) (f : Nat) (hf : 1 ≤ f) (d : Date)
    (hne : d.month ≠ t.month) (i : Nat) : slotWalkAux t f d i = ([], i) := by
  obtain ⟨f', rfl⟩ : ∃ f', f = f' + 1 := ⟨f - 1, by omega⟩
  simp only [slotWalkAux]
  rw [if_pos (Or.inr hne)]

lemma monWedFriFrom_nil (t : Date) (start : Nat)
    (h : daysInMonth t.year t.month < start) : monWedFriFrom t start = [] := by
  unfold monWedFriFrom
  rw [show daysInMonth t.year t.month + 1 - start = 0 by omega]
  rfl

lemma monWedFriFrom_cons (t : Date) (start : Nat)
    (h : start ≤ daysInMonth t.year t.month) :
    monWedFriFrom t start =
      (if isMonWedFri ⟨t.year, t.month, start⟩ then [(⟨t.year, t.month, start⟩ : Date)]
        else []) ++ monWedFriFrom t (start + 1) := by
  unfold monWedFriFrom
  rw [show daysInMonth t.year t.month + 1 - start
        = (daysInMonth t.year t.month + 1 - (start + 1)) + 1 by omega]
  rw [List.range'_succ, List.map_cons, List.filter_cons]
  split <;> simp

lemma slotWalkAux_eq (y m : Nat) (hy : 1 ≤ y) (hm1 : 1 ≤ m) (hm2 : m ≤ 12) :
    ∀ fuel day i, 1 ≤ day → day ≤ daysInMonth y m →
      daysInMonth y m + 2 - day ≤ fuel →
      slotWalkAux ⟨y, m, 1⟩ fuel ⟨y, m, day⟩ i =
        (fillRequests i ((monWedFriFrom ⟨y, m, 1⟩ day).take (13 - i)),
         i + min (13 - i) (monWedFriFrom ⟨y, m, 1⟩ day).length) := by
  intro fuel
  induction fuel with
  | zero => intro day i h1 h2 hf; omega
  | succ f ih =>
    intro day i h1 h2 hf
    by_cases hi : 12 < i
    · simp only [slotWalkAux]
      rw [if_pos (Or.inl hi), show 13 - i = 0 by omega]
      simp [fillRequests]
    · have hcons := monWedFriFrom_cons ⟨y, m, 1⟩ day h2
      dsimp only at hcons
      have hstep : (⟨y, m, day⟩ : Date).addDate 0 1 = Date.nextDay ⟨y, m, day⟩ :=
        addDate_next y m day hy hm1 hm2 h1 h2
      simp only [slotWalkAux]
      rw [if_neg (by push_neg; exact ⟨by omega, rfl⟩)]
      rw [hstep]
      by_cases hq : isMonWedFri ⟨y, m, day⟩
      · rw [if_pos hq] at *
        rw [hcons]
        by_cases hlast : day < daysInMonth y m
        · have hnd : Date.nextDay ⟨y, m, day⟩ = ⟨y, m, day + 1⟩ := by
            unfold Date.nextDay; rw [if_pos hlast]
          rw [hnd, ih (day + 1) (i + 1) (by omega) (by omega) (by omega)]
          rw [show 13 - i = (12 - i) + 1 by omega]
          simp only [List.append_eq, List.singleton_append, List.nil_append,
            List.take_succ_cons, fillRequests, List.length_cons]
          rw [Prod.mk.injEq]
          refine ⟨by rw [show 13 - (i + 1) = 12 - i by omega], by omega⟩
        · have hde : day = daysInMonth y m := by omega
          have hnd2 : (Date.nextDay ⟨y, m, day⟩).month ≠ (⟨y, m, 1⟩ : Date).month := by
            unfold Date.nextDay
            rw [if_neg hlast]
            by_cases hm12 : m < 12
            · rw [if_pos hm12]; dsimp only; omega
            · rw [if_neg hm12]; dsimp only; omega
          rw [slotWalkAux_out _ f (by omega) _ hnd2]
          rw [monWedFriFrom_nil ⟨y, m, 1⟩ (day + 1) (by dsimp only; omega)]
          rw [show 13 - i = (12 - i) + 1 by omega]
          simp only [List.append_eq, List.singleton_append, List.append_nil,
            List.nil_append, List.take_succ_cons, List.take_nil, fillRequests,
            List.length_cons, List.length_nil]
          rw [Prod.mk.injEq]
          refine ⟨rfl, by omega⟩
      · rw [if_neg hq] at *
        rw [hcons]
        simp only [List.append_eq, List.nil_append]
        by_cases hlast : day < daysInMonth y m
        · have hnd : Date.nextDay ⟨y, m, day⟩ = ⟨y, m, day + 1⟩ := by
            unfold Date.nextDay; rw [if_pos hlast]
          rw [hnd, ih (day + 1) i (by omega) (by omega) (by omega)]
        · have hnd2 : (Date.nextDay ⟨y, m, day⟩).month ≠ (⟨y, m, 1⟩ : Date).month := by
            unfold Date.nextDay
            rw [if_neg hlast]
            by_cases hm12 : m < 12
            · rw [if_pos hm12]; dsimp only; omega
            · rw [if_neg hm12]; dsimp only; omega
          rw [slotWalkAux_out _ f (by omega) _ hnd2]
          rw [monWedFriFrom_nil ⟨y, m, 1⟩ (day + 1) (by dsimp only; omega)]
          simp [fillRequests]

/-- The walk, started at the first of the month, selects the first twelve
Monday/Wednesday/Friday dates of the month and ends with `i = k + 1`. -/
lemma slotWalk_eq (y m : Nat) (hy : 1 ≤ y) (hm1 : 1 ≤ m) (hm2 : m ≤ 12) :
    slotWalk ⟨y, m, 1⟩ =
      (fillRequests 1 ((monWedFriDays ⟨y, m, 1⟩).take 12),
       1 + min 12 (monWedFriDays ⟨y, m, 1⟩).length) := by
  unfold slotWalk monWedFriDays
  have h := slotWalkAux_eq y m hy hm1 hm2 32 1 1 (by omega)
    (daysInMonth_pos y m) (by have := daysInMonth_le y m; omega)
  rw [h]

end MakeInvoices

namespace MakeInvoices

/-! ## Placeholder-token facts (finite checks over the slot range) -/

lemma daySlotToken_inj : ∀ i < 14, ∀ j < 14, (daySlotToken i = daySlotToken j ↔ i = j) := by
  decide

lemma daySlotHoursToken_inj :
    ∀ i < 14, ∀ j < 14, (daySlotHoursToken i = daySlotHoursToken j ↔ i = j) := by
  decide

lemma daySlot_ne_hours : ∀ i < 14, ∀ j < 14, ¬ daySlotToken i = daySlotHoursToken j := by
  decide

lemma hours_ne_daySlot : ∀ i < 14, ∀ j < 14, ¬ daySlotHoursToken i = daySlotToken j := by
  decide

lemma base_ne_daySlot : ∀ j < 14,
    ¬ yearToken = daySlotToken j ∧ ¬ monthToken = daySlotToken j ∧
    ¬ dayToken = daySlotToken j ∧ ¬ totalHoursToken = daySlotToken j := by
  decide

lemma base_ne_daySlotHours : ∀ j < 14,
    ¬ yearToken = daySlotHoursToken j ∧ ¬ monthToken = daySlotHoursToken j ∧
    ¬ dayToken = daySlotHoursToken j ∧ ¬ totalHoursToken = daySlotHoursToken j := by
  decide

end MakeInvoices

namespace MakeInvoices

/-! ## Counting the per-slot replacement requests -/

lemma key_day_day (i j : Nat) (hi : i < 14) (hj : j < 14) :
    (daySlotToken i == daySlotToken j) = decide (i = j) := by
  by_cases hij : i = j
  · subst hij; simp
  · have hne : daySlotToken i ≠ daySlotToken j :=
      fun hc => hij ((daySlotToken_inj i hi j hj).mp hc)
    simp [hne, hij]

lemma key_hours_hours (i j : Nat) (hi : i < 14) (hj : j < 14) :
    (daySlotHoursToken i == daySlotHoursToken j) = decide (i = j) := by
  by_cases hij : i = j
  · subst hij; simp
  · have hne : daySlotHoursToken i ≠ daySlotHoursToken j :=
      fun hc => hij ((daySlotHoursToken_inj i hi j hj).mp hc)
    simp [hne, hij]

lemma key_day_hours (i j : Nat) (hi : i < 14) (hj : j < 14) :
    (daySlotToken i == daySlotHoursToken j) = false := by
  simp [daySlot_ne_hours i hi j hj]

lemma key_hours_day (i j : Nat) (hi : i < 14) (hj : j < 14) :
    (daySlotHoursToken i == daySlotToken j) = false := by
  simp [hours_ne_daySlot i hi j hj]

lemma countP_fill_day (j : Nat) (hj : j < 14) (ds : List Date) :
    ∀ i, i + ds.length ≤ 14 →
      (fillRequests i ds).countP (fun r => r.key == daySlotToken j) =
        if i ≤ j ∧ j < i + ds.length then 1 else 0 := by
  induction ds with
  | nil =>
    intro i hi
    simp only [fillRequests, List.countP_nil, List.length_nil]
    split_ifs <;> omega
  | cons d rest ih =>
    intro i hi
    simp only [List.length_cons] at hi
    simp only [fillRequests, List.countP_cons, makeReplaceRequest, List.length_cons]
    rw [ih (i + 1) (by omega)]
    rw [key_day_day i j (by omega) hj, key_hours_day i j (by omega) hj]
    simp only [Bool.false_eq_true, if_false, decide_eq_true_eq]
    split_ifs <;> omega

lemma countP_fill_hours (j : Nat) (hj : j < 14) (ds : List Date) :
    ∀ i, i + ds.length ≤ 14 →
      (fillRequests i ds).countP (fun r => r.key == daySlotHoursToken j) =
        if i ≤ j ∧ j < i + ds.length then 1 else 0 := by
  induction ds with
  | nil =>
    intro i hi
    simp only [fillRequests, List.countP_nil, List.length_nil]
    split_ifs <;> omega
  | cons d rest ih =>
    intro i hi
    simp only [List.length_cons] at hi
    simp only [fillRequests, List.countP_cons, makeReplaceRequest, List.length_cons]
    rw [ih (i + 1) (by omega)]
    rw [key_hours_hours i j (by omega) hj, key_day_hours i j (by omega) hj]
    simp only [Bool.false_eq_true, if_false, decide_eq_true_eq]
    split_ifs <;> omega

end MakeInvoices

namespace MakeInvoices

lemma blankSlots_of_le (i : Nat) (h : i ≤ 12) :
    blankSlots i = makeReplaceRequest (daySlotToken i) "" ::
      makeReplaceRequest (daySlotHoursToken i) "" :: blankSlots (i + 1) := by
  unfold blankSlots
  rw [show 13 - i = (13 - (i + 1)) + 1 by omega]
  simp only [blankSlotsAux]

lemma blankSlots_of_gt (i : Nat) (h : 12 < i) : blankSlots i = [] := by
  unfold blankSlots
  rw [show 13 - i = 0 by omega]
  rfl

lemma countP_blank_day (j : Nat) (hj : j < 14) :
    ∀ n i, 13 - i ≤ n →
      (blankSlots i).countP (fun r => r.key == daySlotToken j) =
        if i ≤ j ∧ j ≤ 12 then 1 else 0 := by
  intro n
  induction n with
  | zero =>
    intro i hi
    rw [blankSlots_of_gt i (by omega), List.countP_nil]
    split_ifs <;> omega
  | succ n ihn =>
    intro i hi
    by_cases h : i ≤ 12
    · rw [blankSlots_of_le i h, List.countP_cons, List.countP_cons]
      rw [ihn (i + 1) (by omega)]
      simp only [makeReplaceRequest]
      simp only [key_day_day i j (by omega) hj, key_hours_day i j (by omega) hj]
      simp only [Bool.false_eq_true, if_false, decide_eq_true_eq]
      split_ifs <;> omega
    · rw [blankSlots_of_gt i (by omega), List.countP_nil]
      split_ifs <;> omega

lemma countP_blank_hours (j : Nat) (hj : j < 14) :
    ∀ n i, 13 - i ≤ n →
      (blankSlots i).countP (fun r => r.key == daySlotHoursToken j) =
        if i ≤ j ∧ j ≤ 12 then 1 else 0 := by
  intro n
  induction n with
  | zero =>
    intro i hi
    rw [blankSlots_of_gt i (by omega), List.countP_nil]
    split_ifs <;> omega
  | succ n ihn =>
    intro i hi
    by_cases h : i ≤ 12
    · rw [blankSlots_of_le i h, List.countP_cons, List.countP_cons]
      rw [ihn (i + 1) (by omega)]
      simp only [makeReplaceRequest]
      simp only [key_hours_hours i j (by omega) hj, key_day_hours i j (by omega) hj]
      simp only [Bool.false_eq_true, if_false, decide_eq_true_eq]
      split_ifs <;> omega
    · rw [blankSlots_of_gt i (by omega), List.countP_nil]
      split_ifs <;> omega

lemma mem_blankSlots (j : Nat) :
    ∀ n i, 13 - i ≤ n → i ≤ j → j ≤ 12 →
      makeReplaceRequest (daySlotToken j) "" ∈ blankSlots i ∧
      makeReplaceRequest (daySlotHoursToken j) "" ∈ blankSlots i := by
  intro n
  induction n with
  | zero => intro i hi h1 h2; omega
  | succ n ihn =>
    intro i hi h1 h2
    rw [blankSlots_of_le i (by omega)]
    by_cases hij : i = j
    · subst hij
      exact ⟨List.mem_cons_self _ _, List.mem_cons_of_mem _ (List.mem_cons_self _ _)⟩
    · obtain ⟨ha, hb⟩ := ihn (i + 1) (by omega) (by omega) h2
      exact ⟨List.mem_cons_of_mem _ (List.mem_cons_of_mem _ ha),
        List.mem_cons_of_mem _ (List.mem_cons_of_mem _ hb)⟩

end MakeInvoices

namespace MakeInvoices

/-! ## Properties of the qualifying-day list -/

lemma mem_monWedFriFrom (t : Date) (s : Nat) (d : Date)
    (h : d ∈ monWedFriFrom t s) :
    d.year = t.year ∧ d.month = t.month ∧ s ≤ d.day ∧
      d.day ≤ daysInMonth t.year t.month ∧ isMonWedFri d = true := by
  unfold monWedFriFrom at h
  rw [List.mem_filter] at h
  obtain ⟨hmem, hq⟩ := h
  rw [List.mem_map] at hmem
  obtain ⟨j, hj, rfl⟩ := hmem
  rw [List.mem_range'] at hj
  obtain ⟨k, hk, rfl⟩ := hj
  exact ⟨rfl, rfl, by dsimp only; omega, by dsimp only; omega, hq⟩

lemma monWedFriFrom_pairwise (t : Date) (s : Nat) :
    List.Pairwise (fun a b : Date => a.day < b.day) (monWedFriFrom t s) := by
  unfold monWedFriFrom
  apply List.Pairwise.filter
  rw [List.pairwise_map]
  exact List.pairwise_lt_range' s _

end MakeInvoices

namespace MakeInvoices

lemma countP_buildRequests (y m : Nat) (hy : 1 ≤ y) (hm1 : 1 ≤ m) (hm2 : m ≤ 12)
    (j : Nat) (hj1 : 1 ≤ j) (hj2 : j ≤ 12) :
    (buildRequests ⟨y, m, 1⟩).countP (fun r => r.key == daySlotToken j) = 1 ∧
    (buildRequests ⟨y, m, 1⟩).countP (fun r => r.key == daySlotHoursToken j) = 1 := by
  have hb := base_ne_daySlot j (by omega)
  have hbh := base_ne_daySlotHours j (by omega)
  have e1 : (yearToken == daySlotToken j) = false := beq_eq_false_iff_ne.mpr hb.1
  have e2 : (monthToken == daySlotToken j) = false := beq_eq_false_iff_ne.mpr hb.2.1
  have e3 : (dayToken == daySlotToken j) = false := beq_eq_false_iff_ne.mpr hb.2.2.1
  have e4 : (totalHoursToken == daySlotToken j) = false := beq_eq_false_iff_ne.mpr hb.2.2.2
  have f1 : (yearToken == daySlotHoursToken j) = false := beq_eq_false_iff_ne.mpr hbh.1
  have f2 : (monthToken == daySlotHoursToken j) = false := beq_eq_false_iff_ne.mpr hbh.2.1
  have f3 : (dayToken == daySlotHoursToken j) = false := beq_eq_false_iff_ne.mpr hbh.2.2.1
  have f4 : (totalHoursToken == daySlotHoursToken j) = false :=
    beq_eq_false_iff_ne.mpr hbh.2.2.2
  unfold buildRequests
  rw [slotWalk_eq y m hy hm1 hm2]
  dsimp only
  constructor
  · simp only [List.countP_append, List.countP_cons, List.countP_nil, makeReplaceRequest,
      e1, e2, e3, e4, Bool.false_eq_true, if_false]
    rw [countP_fill_day j (by omega) _ 1 (by rw [List.length_take]; omega)]
    rw [countP_blank_day j (by omega) 13 _ (by omega)]
    simp only [List.length_take]
    split_ifs <;> omega
  · simp only [List.countP_append, List.countP_cons, List.countP_nil, makeReplaceRequest,
      f1, f2, f3, f4, Bool.false_eq_true, if_false]
    rw [countP_fill_hours j (by omega) _ 1 (by rw [List.length_take]; omega)]
    rw [countP_blank_hours j (by omega) 13 _ (by omega)]
    simp only [List.length_take]
    split_ifs <;> omega

end MakeInvoices

namespace MakeInvoices

/-- C1: for every target month, the weekday-slot walk fills slots `1..k` with
the month's Monday/Wednesday/Friday dates in strictly increasing order
(`k = min 12 #qualifying`, so the walk stops at 12 even if more qualifying
weekdays exist), blanks slots `k+1..12` with both per-slot tokens empty,
issues exactly one replacement request for each of the 24 per-slot tokens,
and sets `{{totalHours}}` to `8*k`. -/
theorem spec_C1 (y m : Nat) (hy : 1 ≤ y) (hm1 : 1 ≤ m) (hm2 : m ≤ 12) :
    (slotWalk ⟨y, m, 1⟩).1 =
        fillRequests 1 ((monWedFriDays ⟨y, m, 1⟩).take 12) ∧
    (slotWalk ⟨y, m, 1⟩).2 = ((monWedFriDays ⟨y, m, 1⟩).take 12).length + 1 ∧
    ((monWedFriDays ⟨y, m, 1⟩).take 12).length =
        min 12 (monWedFriDays ⟨y, m, 1⟩).length ∧
    ((monWedFriDays ⟨y, m, 1⟩).take 12).length ≤ 12 ∧
    List.Chain' (fun a b : Date => a.day < b.day) ((monWedFriDays ⟨y, m, 1⟩).take 12) ∧
    (∀ d ∈ (monWedFriDays ⟨y, m, 1⟩).take 12,
      d.year = y ∧ d.month = m ∧ 1 ≤ d.day ∧ d.day ≤ daysInMonth y m ∧
        (d.weekday = 1 ∨ d.weekday = 3 ∨ d.weekday = 5)) ∧
    (∀ j, ((monWedFriDays ⟨y, m, 1⟩).take 12).length + 1 ≤ j → j ≤ 12 →
      makeReplaceRequest (daySlotToken j) "" ∈ buildRequests ⟨y, m, 1⟩ ∧
      makeReplaceRequest (daySlotHoursToken j) "" ∈ buildRequests ⟨y, m, 1⟩) ∧
    (∀ j, 1 ≤ j → j ≤ 12 →
      (buildRequests ⟨y, m, 1⟩).countP (fun r => r.key == daySlotToken j) = 1 ∧
      (buildRequests ⟨y, m, 1⟩).countP (fun r => r.key == daySlotHoursToken j) = 1) ∧
    makeReplaceRequest totalHoursToken
        (toString (8 * ((monWedFriDays ⟨y, m, 1⟩).take 12).length))
      ∈ buildRequests ⟨y, m, 1⟩ := by
  have hwalk := slotWalk_eq y m hy hm1 hm2
  have hK : ((monWedFriDays ⟨y, m, 1⟩).take 12).length =
      min 12 (monWedFriDays ⟨y, m, 1⟩).length := List.length_take _ _
  refine ⟨?_, ?_, hK, ?_, ?_, ?_, ?_, ?_, ?_⟩
  · rw [hwalk]
  · rw [hwalk, hK]
    dsimp only
    omega
  · rw [hK]; omega
  · exact (List.Pairwise.sublist (List.take_sublist _ _)
      (monWedFriFrom_pairwise ⟨y, m, 1⟩ 1)).chain'
  · intro d hd
    have hd2 := (List.take_sublist 12 _).subset hd
    have hc := mem_monWedFriFrom ⟨y, m, 1⟩ 1 d hd2
    refine ⟨hc.1, hc.2.1, hc.2.2.1, hc.2.2.2.1, ?_⟩
    have hq := hc.2.2.2.2
    simp only [isMonWedFri, Bool.or_eq_true, decide_eq_true_eq] at hq
    tauto
  · intro j hj1 hj2
    rw [hK] at hj1
    unfold buildRequests
    rw [hwalk]
    dsimp only
    constructor
    · exact List.mem_append_right _
        (mem_blankSlots j 13 _ (by omega) (by omega) hj2).1
    · exact List.mem_append_right _
        (mem_blankSlots j 13 _ (by omega) (by omega) hj2).2
  · intro j hj1 hj2
    exact countP_buildRequests y m hy hm1 hm2 j hj1 hj2
  · unfold buildRequests
    rw [hwalk]
    dsimp only
    have hv : (1 + min 12 (monWedFriDays ⟨y, m, 1⟩).length - 1) * 8 =
        8 * ((monWedFriDays ⟨y, m, 1⟩).take 12).length := by
      rw [hK]; omega
    rw [hv]
    exact List.mem_append_left _ (List.mem_append_right _ (List.mem_cons_self _ _))

end MakeInvoices

namespace MakeInvoices

/-- Witness for C1 at the concrete month February 2024: the walk's request
list matches the reference fill of the first twelve qualifying dates, and
slot token 12 is issued exactly once. -/
theorem spec_C1_witness :
    (slotWalk ⟨2024, 2, 1⟩).1 =
        fillRequests 1 ((monWedFriDays ⟨2024, 2, 1⟩).take 12) ∧
    (buildRequests ⟨2024, 2, 1⟩).countP (fun r => r.key == daySlotToken 12) = 1 := by
  have h := spec_C1 2024 2 (by decide) (by decide) (by decide)
  exact ⟨h.1, (h.2.2.2.2.2.2.2.1 12 (by decide) (by decide)).1⟩

/-- C5: for target month February 2024 the walk selects exactly the twelve
dates Feb 2,5,7,9,12,14,16,19,21,23,26,28, fills slots 1..12 with them (so
`{{day12}}` is replaced by "2/28"), blanks no slot, and replaces
`{{totalHours}}` with "96". -/
theorem spec_C5 :
    (slotWalk ⟨2024, 2, 1⟩).1 =
        fillRequests 1 ([2, 5, 7, 9, 12, 14, 16, 19, 21, 23, 26, 28].map
          (fun d => (⟨2024, 2, d⟩ : Date))) ∧
    (slotWalk ⟨2024, 2, 1⟩).2 = 13 ∧
    makeReplaceRequest (daySlotToken 12) "2/28" ∈ buildRequests ⟨2024, 2, 1⟩ ∧
    makeReplaceRequest totalHoursToken "96" ∈ buildRequests ⟨2024, 2, 1⟩ ∧
    blankSlots (slotWalk ⟨2024, 2, 1⟩).2 = [] := by
  refine ⟨by rfl, by rfl, by decide, by decide, by rfl⟩

end MakeInvoices

namespace MakeInvoices

/-! ## SpreadsheetSynchronizer lemmas -/

lemma cellValue_eq (target : Date) (s : String) (i : Nat) (l : List Date) :
    cellValue target s i l =
      if ∃ d ∈ l, target.year = d.year ∧ target.month = d.month ∧ i = d.day
      then s else "" := by
  induction l with
  | nil => simp [cellValue]
  | cons d rest ih =>
    simp only [cellValue]
    by_cases h : target.year = d.year ∧ target.month = d.month ∧ i = d.day
    · rw [if_pos h, if_pos ⟨d, List.mem_cons_self _ _, h⟩]
    · rw [if_neg h, ih]
      refine if_congr ?_ rfl rfl
      constructor
      · rintro ⟨d', hd', hp⟩
        exact ⟨d', List.mem_cons_of_mem _ hd', hp⟩
      · rintro ⟨d', hd', hp⟩
        rcases List.mem_cons.mp hd' with rfl | hmem
        · exact absurd hp h
        · exact ⟨d', hmem, hp⟩

/-- C2: the attendance column has exactly 31 cells; cell `i` (day index
`1..31`) holds the configured start time iff some work day matches the
target year/month with day `i`, else the empty string; and the column
depends only on membership in the work-day list, so duplicates change
nothing. -/
theorem spec_C2 (target : Date) (workDays : List Date) (startTime : String) :
    (buildColumn target workDays startTime).length = 31 ∧
    (∀ i, 1 ≤ i → i ≤ 31 →
      (buildColumn target workDays startTime).getD (i - 1) "" =
        if ∃ d ∈ workDays, target.year = d.year ∧ target.month = d.month ∧ i = d.day
        then startTime else "") ∧
    (∀ l₂ : List Date, (∀ d, d ∈ workDays ↔ d ∈ l₂) →
      buildColumn target workDays startTime = buildColumn target l₂ startTime) := by
  refine ⟨?_, ?_, ?_⟩
  · unfold buildColumn
    rw [List.length_map, List.length_range']
  · intro i h1 h2
    unfold buildColumn
    rw [List.getD_eq_getElem?_getD, List.getElem?_map,
      List.getElem?_range' 1 1 (by omega : i - 1 < 31)]
    simp only [Option.map_some', Option.getD_some]
    rw [show 1 + 1 * (i - 1) = i by omega, cellValue_eq]
  · intro l₂ hmem
    unfold buildColumn
    apply List.map_congr_left
    intro a _
    rw [cellValue_eq, cellValue_eq]
    refine if_congr ?_ rfl rfl
    constructor
    · rintro ⟨d', hd', hp⟩
      exact ⟨d', (hmem d').mp hd', hp⟩
    · rintro ⟨d', hd', hp⟩
      exact ⟨d', (hmem d').mpr hd', hp⟩

/-- Witness for C2 at the spec's concrete scenario: work days 2024-02-03 and
2024-02-10 (the first listed twice) with start time "09:00" give "09:00" at
day indices 3 and 10, the empty string at index 1, and the duplicate does
not change the column. -/
theorem spec_C2_witness :
    (buildColumn ⟨2024, 2, 1⟩ [⟨2024, 2, 3⟩, ⟨2024, 2, 3⟩, ⟨2024, 2, 10⟩] "09:00").getD 2 ""
        = "09:00" ∧
    (buildColumn ⟨2024, 2, 1⟩ [⟨2024, 2, 3⟩, ⟨2024, 2, 3⟩, ⟨2024, 2, 10⟩] "09:00").getD 9 ""
        = "09:00" ∧
    (buildColumn ⟨2024, 2, 1⟩ [⟨2024, 2, 3⟩, ⟨2024, 2, 3⟩, ⟨2024, 2, 10⟩] "09:00").getD 0 ""
        = "" ∧
    buildColumn ⟨2024, 2, 1⟩ [⟨2024, 2, 3⟩, ⟨2024, 2, 3⟩, ⟨2024, 2, 10⟩] "09:00" =
      buildColumn ⟨2024, 2, 1⟩ [⟨2024, 2, 3⟩, ⟨2024, 2, 10⟩] "09:00" := by
  have h := spec_C2 ⟨2024, 2, 1⟩ [⟨2024, 2, 3⟩, ⟨2024, 2, 3⟩, ⟨2024, 2, 10⟩] "09:00"
  refine ⟨?_, ?_, ?_, ?_⟩
  · rw [h.2.1 3 (by decide) (by decide)]
    decide
  · rw [h.2.1 10 (by decide) (by decide)]
    decide
  · rw [h.2.1 1 (by decide) (by decide)]
    decide
  · exact h.2.2 [⟨2024, 2, 3⟩, ⟨2024, 2, 10⟩] (by intro d; simp [List.mem_cons])

/-- C6: the synchronizer's cell writes (M3 and the D7:D37 column) do not
read the page's prior contents, so running the writes twice with the same
inputs leaves the same final cell contents as running them once. -/
theorem spec_C6 (target : Date) (workDays : List Date) (startTime : String)
    (st : PageState) :
    applySheetWrites target workDays startTime
        (applySheetWrites target workDays startTime st) =
      applySheetWrites target workDays startTime st ∧
    (∀ st₂, applySheetWrites target workDays startTime st₂ =
      applySheetWrites target workDays startTime st) :=
  ⟨rfl, fun _ => rfl⟩

/-! ## DocumentTemplater folder lemmas -/

lemma countP_deletePass (tname : String) (chunks : List (List DriveFile)) :
    (deletePass tname chunks).countP (fun f => f.name == tname) = 0 := by
  induction chunks with
  | nil => rfl
  | cons page rest ih =>
    simp only [deletePass, List.countP_append, ih, Nat.add_zero]
    rw [List.countP_eq_zero]
    intro f hf
    rw [List.mem_filter] at hf
    have hne := hf.2
    simp only [decide_not, Bool.not_eq_true', decide_eq_false_iff_not] at hne
    simp [hne]

/-- C7: for every folder state (any pagination, any number of name
collisions), the templater's delete pass removes every file named with the
computed target name, and after the copy exactly one file with that name
exists. -/
theorem spec_C7 (chunks : List (List DriveFile)) (templateName : String)
    (target : Date) (newId : String) :
    (deletePass (targetDocumentName templateName target) chunks).countP
        (fun f => f.name == targetDocumentName templateName target) = 0 ∧
    (folderAfterTemplater chunks templateName target newId).countP
        (fun f => f.name == targetDocumentName templateName target) = 1 := by
  refine ⟨countP_deletePass _ _, ?_⟩
  unfold folderAfterTemplater
  rw [List.countP_append, countP_deletePass]
  simp

end MakeInvoices

namespace MakeInvoices

/-! ## Target-sheet resolution lemmas -/

lemma foldl_sheetid_const (t : String) (pages : List SheetProps)
    (h : ∀ s ∈ pages, ¬ t = s.title) :
    ∀ acc : Int, pages.foldl (fun acc s => if t = s.title then s.sheetId else acc) acc
      = acc := by
  induction pages with
  | nil => intro acc; rfl
  | cons p rest ih =>
    intro acc
    rw [List.foldl_cons, if_neg (h p (List.mem_cons_self _ _))]
    exact ih (fun s hs => h s (List.mem_cons_of_mem _ hs)) acc

lemma foldl_sheetid_zero (t : String) (pages : List SheetProps)
    (h : ∀ s ∈ pages, t = s.title → s.sheetId = 0) :
    pages.foldl (fun acc s => if t = s.title then s.sheetId else acc) 0 = 0 := by
  induction pages with
  | nil => rfl
  | cons p rest ih =>
    rw [List.foldl_cons]
    by_cases hp : t = p.title
    · rw [if_pos hp, h p (List.mem_cons_self _ _) hp]
      exact ih (fun s hs => h s (List.mem_cons_of_mem _ hs))
    · rw [if_neg hp]
      exact ih (fun s hs => h s (List.mem_cons_of_mem _ hs))

/-- C4: when the page list has no page titled with the target month's
compact form and none titled with the immediately preceding month's compact
form, resolution is fatal; and whenever resolution clones, the clone source
is a page titled with the literal previous month — never any other page. -/
theorem spec_C4 (y m : Nat) (hy : 1 ≤ y) (hm1 : 1 ≤ m) (hm2 : m ≤ 12)
    (pages : List SheetProps) :
    ((∀ s ∈ pages, s.title ≠ formatCompact ⟨y, m, 1⟩) →
      (∀ s ∈ pages, s.title ≠ formatCompact (prevMonth ⟨y, m, 1⟩)) →
      resolveTargetSheet pages ⟨y, m, 1⟩ = SheetResolution.fatal) ∧
    (∀ sid : Int, resolveTargetSheet pages ⟨y, m, 1⟩ = SheetResolution.cloned sid →
      ∃ s ∈ pages, s.title = formatCompact (prevMonth ⟨y, m, 1⟩) ∧ s.sheetId = sid) := by
  have hprev : (⟨y, m, 1⟩ : Date).addDate (-1) 0 = prevMonth ⟨y, m, 1⟩ :=
    addDate_prev y m hy hm1 hm2
  constructor
  · intro hT hP
    unfold resolveTargetSheet findTargetSheetID
    rw [hprev]
    rw [foldl_sheetid_const _ pages (fun s hs h => hT s hs h.symm)]
    rw [if_pos rfl]
    rw [List.find?_eq_none.mpr ?_]
    intro s hs
    simp only [decide_eq_true_eq]
    exact fun h => hP s hs h.symm
  · intro sid hres
    unfold resolveTargetSheet at hres
    rw [hprev] at hres
    by_cases h0 : findTargetSheetID pages (formatCompact ⟨y, m, 1⟩) = 0
    · rw [if_pos h0] at hres
      cases hf : pages.find?
          (fun s => formatCompact (prevMonth ⟨y, m, 1⟩) = s.title) with
      | none => rw [hf] at hres; cases hres
      | some s =>
        rw [hf] at hres
        have hsid : s.sheetId = sid := by
          cases hres
          rfl
        have hmem := List.mem_of_find?_eq_some hf
        have htitle := List.find?_some hf
        simp only [decide_eq_true_eq] at htitle
        exact ⟨s, hmem, htitle.symm, hsid⟩
    · rw [if_neg h0] at hres
      cases hres

/-- Witness for C4: a spreadsheet with a single page titled "202311" has
neither "202402" nor "202401", so resolution for February 2024 is fatal;
and a cloned resolution for a list containing "202401" names that page. -/
theorem spec_C4_witness :
    resolveTargetSheet [⟨7, "202311"⟩] ⟨2024, 2, 1⟩ = SheetResolution.fatal ∧
    (∃ s ∈ [(⟨7, "202401"⟩ : SheetProps)],
      s.title = formatCompact (prevMonth ⟨2024, 2, 1⟩) ∧ s.sheetId = 7) := by
  constructor
  · exact (spec_C4 2024 2 (by decide) (by decide) (by decide) [⟨7, "202311"⟩]).1
      (by decide) (by decide)
  · exact (spec_C4 2024 2 (by decide) (by decide) (by decide) [⟨7, "202401"⟩]).2
      7 (by decide)

/-- C10: when every page titled with the target month's compact form has the
sentinel identifier 0, the synchronizer treats the target page as absent:
resolution is never `existing`, and is either a clone of a previous-month
page or fatal. -/
theorem spec_C10 (y m : Nat) (hy : 1 ≤ y) (hm1 : 1 ≤ m) (hm2 : m ≤ 12)
    (pages : List SheetProps)
    (hz : ∀ s ∈ pages, s.title = formatCompact ⟨y, m, 1⟩ → s.sheetId = 0)
    (hex : ∃ s ∈ pages, s.title = formatCompact ⟨y, m, 1⟩) :
    (∀ sid : Int, resolveTargetSheet pages ⟨y, m, 1⟩ ≠ SheetResolution.existing sid) ∧
    (resolveTargetSheet pages ⟨y, m, 1⟩ = SheetResolution.fatal ∨
      ∃ s ∈ pages, s.title = formatCompact (prevMonth ⟨y, m, 1⟩) ∧
        resolveTargetSheet pages ⟨y, m, 1⟩ = SheetResolution.cloned s.sheetId) := by
  have hprev : (⟨y, m, 1⟩ : Date).addDate (-1) 0 = prevMonth ⟨y, m, 1⟩ :=
    addDate_prev y m hy hm1 hm2
  have h0 : findTargetSheetID pages (formatCompact ⟨y, m, 1⟩) = 0 :=
    foldl_sheetid_zero _ pages (fun s hs h => hz s hs h.symm)
  unfold resolveTargetSheet
  rw [hprev, h0, if_pos rfl]
  cases hf : pages.find? (fun s => formatCompact (prevMonth ⟨y, m, 1⟩) = s.title) with
  | none =>
    constructor
    · intro sid h
      cases h
    · exact Or.inl rfl
  | some s =>
    constructor
    · intro sid h
      cases h
    · refine Or.inr ⟨s, List.mem_of_find?_eq_some hf, ?_, rfl⟩
      have := List.find?_some hf
      simp only [decide_eq_true_eq] at this
      exact this.symm

/-- Witness for C10: a page titled "202402" but with sheet id 0 is treated
as absent, and resolution clones from the page titled "202401". -/
theorem spec_C10_witness :
    (∀ sid : Int, resolveTargetSheet [⟨0, "202402"⟩, ⟨3, "202401"⟩] ⟨2024, 2, 1⟩
        ≠ SheetResolution.existing sid) ∧
    (resolveTargetSheet [⟨0, "202402"⟩, ⟨3, "202401"⟩] ⟨2024, 2, 1⟩
        = SheetResolution.fatal ∨
      ∃ s ∈ [(⟨0, "202402"⟩ : SheetProps), ⟨3, "202401"⟩],
        s.title = formatCompact (prevMonth ⟨2024, 2, 1⟩) ∧
        resolveTargetSheet [⟨0, "202402"⟩, ⟨3, "202401"⟩] ⟨2024, 2, 1⟩
          = SheetResolution.cloned s.sheetId) :=
  spec_C10 2024 2 (by decide) (by decide) (by decide)
    [⟨0, "202402"⟩, ⟨3, "202401"⟩] (by decide) (by decide)

end MakeInvoices

namespace MakeInvoices

/-! ## Template metadata (C9) and work-day extraction (C3) -/

/-- Counterexample to C9: for a template whose metadata has an empty parent
list, the parent access produces a Go runtime panic, not the run's uniform
fatal abort — the slice index at main.go 557 is unguarded. -/
theorem spec_C9_counterexample :
    templateParentFolder ⟨"invoice yyyymm", []⟩ =
      Except.error (RunError.goPanic "runtime error: index out of range") := rfl

/-- C9 (amended): the access to the first parent is unguarded; an empty
parent list causes an uncontrolled index-out-of-range panic rather than the
uniform fatal error, and a non-empty list yields its first element. -/
theorem spec_C9_amended (t : TemplateMeta) :
    (t.parents = [] →
      templateParentFolder t =
        Except.error (RunError.goPanic "runtime error: index out of range")) ∧
    (∀ p rest, t.parents = p :: rest → templateParentFolder t = Except.ok p) := by
  constructor
  · intro h
    unfold templateParentFolder
    rw [h]
  · intro p rest h
    unfold templateParentFolder
    rw [h]

/-- Witness for the amended C9 at concrete metadata values. -/
theorem spec_C9_amended_witness :
    templateParentFolder ⟨"report yyyymm", []⟩ =
        Except.error (RunError.goPanic "runtime error: index out of range") ∧
    templateParentFolder ⟨"report yyyymm", ["folder1", "folder2"]⟩ =
        Except.ok "folder1" :=
  ⟨(spec_C9_amended ⟨"report yyyymm", []⟩).1 rfl,
   (spec_C9_amended ⟨"report yyyymm", ["folder1", "folder2"]⟩).2 "folder1" ["folder2"] rfl⟩

/-- C3: when the extractor returns (no parse failure), its result contains
the date of every event whose summary equals the configured title and whose
resolved date lies in the target month, and every returned date lies in the
target month and stems from such an event. -/
theorem spec_C3 (target : Date) (title : String) (events : List CalEvent)
    (ws : List Date) (h : getWorkDays target title events = some ws) :
    (∀ e ∈ events, ∀ d, resolveEventDate e = some d → e.summary = title →
      d.year = target.year → d.month = target.month → d ∈ ws) ∧
    (∀ d ∈ ws, (d.year = target.year ∧ d.month = target.month) ∧
      ∃ e ∈ events, e.summary = title ∧ resolveEventDate e = some d) := by
  induction events generalizing ws with
  | nil =>
    simp only [getWorkDays, Option.some.injEq] at h
    subst h
    exact ⟨by simp, by simp⟩
  | cons e rest ih =>
    simp only [getWorkDays] at h
    cases hre : resolveEventDate e with
    | none => rw [hre] at h; cases h
    | some date =>
      rw [hre] at h
      cases hrest : getWorkDays target title rest with
      | none => rw [hrest] at h; cases h
      | some ws' =>
        rw [hrest] at h
        dsimp only at h
        obtain ⟨ihc, ihs⟩ := ih ws' hrest
        by_cases hmo : date.year ≠ target.year ∨ date.month ≠ target.month
        · rw [if_pos hmo] at h
          cases h
          constructor
          · intro e' he' d hd hsum hdy hdm
            rcases List.mem_cons.mp he' with rfl | hmem
            · rw [hre] at hd
              cases hd
              rcases hmo with hmo | hmo
              · exact absurd hdy hmo
              · exact absurd hdm hmo
            · exact ihc e' hmem d hd hsum hdy hdm
          · intro d hd
            obtain ⟨hym, e', he', hsum, hres⟩ := ihs d hd
            exact ⟨hym, e', List.mem_cons_of_mem _ he', hsum, hres⟩
        · rw [if_neg hmo] at h
          push_neg at hmo
          by_cases hsum : e.summary = title
          · rw [if_pos hsum] at h
            cases h
            constructor
            · intro e' he' d hd hs hdy hdm
              rcases List.mem_cons.mp he' with rfl | hmem
              · rw [hre] at hd
                cases hd
                exact List.mem_cons_self _ _
              · exact List.mem_cons_of_mem _ (ihc e' hmem d hd hs hdy hdm)
            · intro d hd
              rcases List.mem_cons.mp hd with rfl | hmem
              · exact ⟨⟨hmo.1, hmo.2⟩, e, List.mem_cons_self _ _, hsum, hre⟩
              · obtain ⟨hym, e', he', hs, hres⟩ := ihs d hmem
                exact ⟨hym, e', List.mem_cons_of_mem _ he', hs, hres⟩
          · rw [if_neg hsum] at h
            cases h
            constructor
            · intro e' he' d hd hs hdy hdm
              rcases List.mem_cons.mp he' with rfl | hmem
              · exact absurd hs hsum
              · exact ihc e' hmem d hd hs hdy hdm
            · intro d hd
              obtain ⟨hym, e', he', hs, hres⟩ := ihs d hd
              exact ⟨hym, e', List.mem_cons_of_mem _ he', hs, hres⟩

/-- Witness for C3: three events — an in-month work day (all-day form), an
out-of-month work day, and an in-month event with a different label — yield
exactly the first date, and the completeness direction applies to it. -/
theorem spec_C3_witness :
    getWorkDays ⟨2024, 2, 1⟩ "work"
        [⟨"", "2024-02-03", "work"⟩, ⟨"", "2024-01-05", "work"⟩,
         ⟨"2024-02-04T09:00:00+09:00", "", "off"⟩] = some [⟨2024, 2, 3⟩] ∧
    Date.mk 2024 2 3 ∈ ([⟨2024, 2, 3⟩] : List Date) := by
  refine ⟨by rfl, ?_⟩
  have h := spec_C3 ⟨2024, 2, 1⟩ "work"
    [⟨"", "2024-02-03", "work"⟩, ⟨"", "2024-01-05", "work"⟩,
     ⟨"2024-02-04T09:00:00+09:00", "", "off"⟩] [⟨2024, 2, 3⟩] (by rfl)
  exact h.1 ⟨"", "2024-02-03", "work"⟩ (List.mem_cons_self _ _) ⟨2024, 2, 3⟩
    (by rfl) rfl rfl rfl

end MakeInvoices

namespace MakeInvoices

/-- C8: the run's target month is normalized to day 1; under that invariant
the `{{day}}` value — computed by `AddDate(0, 1, -1)` — is the day-of-month
of the last calendar day of the target month, while `{{year}}` is the
4-digit year and `{{month}}` the month number without a leading zero. -/
theorem spec_C8 (y m : Nat) (hy : 1 ≤ y) (hm1 : 1 ≤ m) (hm2 : m ≤ 12) :
    (∀ u : Date, (normalizeTarget u).day = 1) ∧
    ((⟨y, m, 1⟩ : Date).addDate 1 (-1)).day = daysInMonth y m ∧
    (buildRequests ⟨y, m, 1⟩).take 3 =
      [makeReplaceRequest yearToken (padZero 4 y),
       makeReplaceRequest monthToken (toString m),
       makeReplaceRequest dayToken (toString (daysInMonth y m))] := by
  have hlast := addDate_last y m hy hm1 hm2
  refine ⟨fun u => rfl, by rw [hlast], ?_⟩
  unfold buildRequests
  rw [hlast]
  rfl

/-- Witness for C8 at February 2024: the `{{day}}` value is 29, and the
first three replacement requests carry "2024", "2" and "29". -/
theorem spec_C8_witness :
    ((⟨2024, 2, 1⟩ : Date).addDate 1 (-1)).day = 29 ∧
    (buildRequests ⟨2024, 2, 1⟩).take 3 =
      [makeReplaceRequest yearToken "2024",
       makeReplaceRequest monthToken "2",
       makeReplaceRequest dayToken "29"] := by
  have h := spec_C8 2024 2 (by decide) (by decide) (by decide)
  exact ⟨h.2.1, h.2.2⟩

end MakeInvoices
